import Mathlib

/-!
Verification development for the google/test-server recording subsystem.

Go strings and byte slices are modelled as `List Char` (`Str`).  The
`store` package implementation is not part of the sources (only its tests
are), so `Serialize`, `Deserialize`, `ComputeSum`, `GetRecordingFileName`
and the `redact` package are modelled from the specification and pinned
against the test vectors of `internal/store/store_test.go`; every such
definition carries a doc comment starting `Modelled from the spec:`.
The proxy handler `RecordingHTTPSProxy.handleRequest` and its helpers are
translated from the recording proxy source file.
-/

set_option maxRecDepth 100000

/-- Go strings / byte slices are modelled as lists of characters. -/
abbrev Str := List Char

/-- Turn a Lean string literal into the `Str` model. -/
def gs (s : String) : Str := s.data

/-- The newline byte. -/
def nlc : Char := '\n'

/-- `store.HeadSHA`: the sentinel previous-hash value, 64 zero characters. -/
def HeadSHA : Str := List.replicate 64 '0'

/-- The hard separator of the canonical serialized form: exactly 80 `*`. -/
def sepLine : Str := List.replicate 80 '*'

/-- Go `http.Header`: a multi-valued map from header name to values,
modelled as an association list. -/
abbrev Headers := List (Str × List Str)

/-- Association-list lookup (first match), used for Go map reads. -/
def aGet {α : Type} : List (Str × α) → Str → Option α
  | [], _ => none
  | (k2, v) :: rest, k => if k2 = k then some v else aGet rest k

/-- Association-list update of an existing key (Go map write of a present
key); inserts at the end when the key is absent. -/
def aSet {α : Type} : List (Str × α) → Str → α → List (Str × α)
  | [], k, v => [(k, v)]
  | (k2, v2) :: rest, k, v =>
    if k2 = k then (k, v) :: rest else (k2, v2) :: aSet rest k v

/-- Byte-wise lexicographic comparison of header names, used to give
`Serialize` its deterministic header ordering. -/
def strLe : Str → Str → Bool
  | [], _ => true
  | _ :: _, [] => false
  | a :: s, b :: t => if a < b then true else if b < a then false else strLe s t

/-- Insert one header into a name-sorted header list. -/
def hInsert (p : Str × List Str) : Headers → Headers
  | [] => [p]
  | q :: rest => if strLe p.1 q.1 then p :: q :: rest else q :: hInsert p rest

/-- Sort headers by name ascending (insertion sort); `Serialize` must emit
headers in this deterministic order. -/
def sortHeaders : Headers → Headers
  | [] => []
  | p :: rest => hInsert p (sortHeaders rest)

/-- Decimal digit characters. -/
def digitChar (n : Nat) : Char :=
  match n with
  | 0 => '0' | 1 => '1' | 2 => '2' | 3 => '3' | 4 => '4'
  | 5 => '5' | 6 => '6' | 7 => '7' | 8 => '8' | _ => '9'

/-- Accumulator loop of the decimal printer; the first argument is fuel,
always at least the value being printed plus one. -/
def natToStrCore : Nat → Nat → Str → Str
  | 0, _, acc => acc
  | fuel + 1, n, acc =>
    if n < 10 then digitChar n :: acc
    else natToStrCore fuel (n / 10) (digitChar (n % 10) :: acc)

/-- Base-10 rendering of a natural number (Go `%d`). -/
def natToStr (n : Nat) : Str := natToStrCore (n + 1) n []

/-- `store.RecordedRequest`: the canonical representation of one recorded
request, with the fields consumed by `Serialize` (per the store tests). -/
structure RecordedRequest where
  Request : Str
  Header : Headers
  Body : Str
  PreviousRequest : Str
  ServerAddress : Str
  Port : Nat
  Protocol : Str
deriving DecidableEq, Repr

/-- One serialized line per header value, headers sorted by name,
value order preserved within a name. -/
def headerLines (h : Headers) : List Str :=
  (sortHeaders h).flatMap fun p => p.2.map fun v => p.1 ++ ':' :: ' ' :: v

/-- Join lines with a single newline between consecutive lines. -/
def joinNl : List Str → Str
  | [] => []
  | [l] => l
  | l :: l2 :: ls => l ++ nlc :: joinNl (l2 :: ls)

/-- The lines of the canonical serialized form: preamble, separator,
request line, header lines, two blank lines, body. -/
def serializeLines (r : RecordedRequest) : List Str :=
  r.PreviousRequest ::
  (gs "Server Address: " ++ r.ServerAddress) ::
  (gs "Port: " ++ natToStr r.Port) ::
  (gs "Protocol: " ++ r.Protocol) ::
  sepLine ::
  r.Request ::
  (headerLines r.Header ++ [[], [], r.Body])

/-- Modelled from the spec: `RecordedRequest.Serialize`, the canonical
serialized form hashed by the fingerprint; the store implementation is not
among the sources, so the layout follows the specification and is pinned
below against the four serializer test vectors of the store tests. -/
def Serialize (r : RecordedRequest) : Str := joinNl (serializeLines r)

/-- Store test vector: serializing the empty request. -/
theorem serialize_vector_empty :
    Serialize { Request := [], Header := [], Body := [], PreviousRequest := HeadSHA,
                ServerAddress := [], Port := 0, Protocol := [] } =
    HeadSHA ++ gs "\nServer Address: \nPort: 0\nProtocol: \n********************************************************************************\n\n\n\n" := by
  decide

/-- Store test vector: serializing a request with headers emits one sorted
line per header value between the request line and the two blank lines. -/
theorem serialize_vector_headers :
    Serialize { Request := gs "GET / HTTP/1.1",
                Header := [(gs "Content-Type", [gs "application/json"]),
                           (gs "Accept", [gs "application/xml"])],
                Body := [], PreviousRequest := HeadSHA,
                ServerAddress := [], Port := 0, Protocol := [] } =
    HeadSHA ++ gs "\nServer Address: \nPort: 0\nProtocol: \n********************************************************************************\nGET / HTTP/1.1\nAccept: application/xml\nContent-Type: application/json\n\n\n" := by
  decide

/-- Store test vector: serializing a request with a body places the raw
body bytes after the two blank lines. -/
theorem serialize_vector_body :
    Serialize { Request := gs "POST /data HTTP/1.1", Header := [],
                Body := gs "\x7b\"key\": \"value\"\x7d", PreviousRequest := HeadSHA,
                ServerAddress := [], Port := 0, Protocol := [] } =
    HeadSHA ++ gs "\nServer Address: \nPort: 0\nProtocol: \n********************************************************************************\nPOST /data HTTP/1.1\n\n\n\x7b\"key\": \"value\"\x7d" := by
  decide

/-- Store test vector: a non-sentinel previous-request hash heads the form. -/
theorem serialize_vector_prev :
    Serialize { Request := gs "GET / HTTP/1.1", Header := [], Body := [],
                PreviousRequest := gs "0102030405060708090a0b0c0d0e0f101112131415161718191a1b1c1d1e1f20",
                ServerAddress := [], Port := 0, Protocol := [] } =
    gs "0102030405060708090a0b0c0d0e0f101112131415161718191a1b1c1d1e1f20\nServer Address: \nPort: 0\nProtocol: \n********************************************************************************\nGET / HTTP/1.1\n\n\n" := by
  decide

/-- Line-splitter on the newline character; always returns at least one
line, and joining the result with newlines restores the input. -/
def splitNl : Str → List Str
  | [] => [[]]
  | c :: rest =>
    match splitNl rest with
    | [] => [[]]
    | l :: ls => if c = nlc then [] :: l :: ls else (c :: l) :: ls

/-- Locate the first line equal to the 80-asterisk separator, returning
the lines before it and the lines after it. -/
def breakAtSep : List Str → Option (List Str × List Str)
  | [] => none
  | l :: ls =>
    if l = sepLine then some ([], ls)
    else
      match breakAtSep ls with
      | none => none
      | some (pre, post) => some (l :: pre, post)

/-- Remove a required leading literal from a line (preamble parsing by
known prefixes). -/
def takeAfter : Str → Str → Option Str
  | [], s => some s
  | _ :: _, [] => none
  | p :: ps, c :: cs => if p = c then takeAfter ps cs else none

/-- Is this a decimal digit? -/
def isDigitChar (c : Char) : Bool := '0' ≤ c ∧ c ≤ '9'

/-- Numeric value of a digit character. -/
def digitVal (c : Char) : Nat := c.toNat - 48

/-- Base-10 parse of a nonempty all-digit string (Go `strconv.Atoi` on the
port field; leading zeros are accepted). -/
def strToNat : Str → Option Nat
  | [] => none
  | s =>
    if s.all isDigitChar then some (s.foldl (fun a c => a * 10 + digitVal c) 0)
    else none

/-- Split a header line at the first `": "` into name and value. -/
def splitHeaderLine : Str → Option (Str × Str)
  | [] => none
  | c :: rest =>
    if c = ':' ∧ rest.head? = some ' ' then some ([], rest.tail)
    else
      match splitHeaderLine rest with
      | some (k, v) => some (c :: k, v)
      | none => none

/-- Go `http.Header.Add`: append a value to the named header, creating the
entry at the end when absent. -/
def addHeader (h : Headers) (k : Str) (v : Str) : Headers :=
  match aGet h k with
  | none => h ++ [(k, [v])]
  | some vs => aSet h k (vs ++ [v])

/-- Parse header lines until the first blank line, require a second blank
line, and return the parsed name/value pairs with the remaining lines. -/
def parseHeaderLines : List Str → Option (List (Str × Str) × List Str)
  | [] => none
  | l :: ls =>
    if l = [] then
      match ls with
      | l2 :: ls2 => if l2 = [] then some ([], ls2) else none
      | [] => none
    else
      match splitHeaderLine l, parseHeaderLines ls with
      | some (k, v), some (hs, rest) => some ((k, v) :: hs, rest)
      | _, _ => none

/-- Deserialization failures of the store package. -/
inductive StoreError where
  | InvalidSerializedForm
  | InvalidPort
deriving DecidableEq, Repr

deriving instance DecidableEq for Except

/-- Modelled from the spec: `store.Deserialize`, the inverse of
`Serialize` (its implementation is not among the sources): split on the
first 80-asterisk line, parse the preamble by known prefixes, parse header
lines until a blank, remainder is body; `InvalidSerializedForm` when the
separator is missing, `InvalidPort` when the port is not base-10.  Pinned
below against the deserializer test vectors of the store tests. -/
def Deserialize (x : Str) : Except StoreError RecordedRequest :=
  match breakAtSep (splitNl x) with
  | none => .error .InvalidSerializedForm
  | some (pre, post) =>
    match pre with
    | [prevL, addrL, portL, protoL] =>
      match takeAfter (gs "Server Address: ") addrL,
            takeAfter (gs "Port: ") portL,
            takeAfter (gs "Protocol: ") protoL with
      | some addr, some portS, some proto =>
        match strToNat portS with
        | none => .error .InvalidPort
        | some port =>
          match post with
          | [] => .error .InvalidSerializedForm
          | reqLine :: rest =>
            match parseHeaderLines rest with
            | none => .error .InvalidSerializedForm
            | some (pairs, bodyLines) =>
              .ok { Request := reqLine
                  , Header := pairs.foldl (fun h p => addHeader h p.1 p.2) []
                  , Body := joinNl bodyLines
                  , PreviousRequest := prevL
                  , ServerAddress := addr
                  , Port := port
                  , Protocol := proto }
      | _, _, _ => .error .InvalidSerializedForm
    | _ => .error .InvalidSerializedForm

/-- Store test vector: deserializing a valid serialized request recovers
every field, headers grouped in order of appearance. -/
theorem deserialize_vector_valid :
    Deserialize (gs "0102030405060708090a0b0c0d0e0f101112131415161718191a1b1c1d1e1f20\nServer Address: example.com\nPort: 8080\nProtocol: http\n********************************************************************************\nGET / HTTP/1.1\nAccept: application/xml\nContent-Type: application/json\n\n\n\x7b\"key\": \"value\"\x7d") =
    .ok { Request := gs "GET / HTTP/1.1"
        , Header := [(gs "Accept", [gs "application/xml"]),
                     (gs "Content-Type", [gs "application/json"])]
        , Body := gs "\x7b\"key\": \"value\"\x7d"
        , PreviousRequest := gs "0102030405060708090a0b0c0d0e0f101112131415161718191a1b1c1d1e1f20"
        , ServerAddress := gs "example.com"
        , Port := 8080
        , Protocol := gs "http" } := by
  decide

/-- Store test vector: input without the separator line is rejected. -/
theorem deserialize_vector_missing_sep :
    Deserialize (gs "GET / HTTP/1.1\nAccept: application/xml") =
    .error .InvalidSerializedForm := by
  decide

/-- Store test vector: empty input is rejected. -/
theorem deserialize_vector_empty :
    Deserialize [] = .error .InvalidSerializedForm := by
  decide

/-- Store test vector: a non-numeric port field is rejected. -/
theorem deserialize_vector_bad_port :
    Deserialize (gs "0102030405060708090a0b0c0d0e0f101112131415161718191a1b1c1d1e1f20\nServer Address: example.com\nPort: invalid\nProtocol: http\n********************************************************************************\nGET / HTTP/1.1\nAccept: application/xml\nContent-Type: application/json\n\n\n\x7b\"key\": \"value\"\x7d") =
    .error .InvalidPort := by
  decide

theorem splitNl_ne_nil (s : Str) : splitNl s ≠ [] := by
  cases s with
  | nil => simp [splitNl]
  | cons c rest =>
    simp only [splitNl]
    cases splitNl rest with
    | nil => simp
    | cons l ls => by_cases h : c = nlc <;> simp [h]

theorem joinNl_cons (x : Str) (ls : List Str) (h : ls ≠ []) :
    joinNl (x :: ls) = x ++ nlc :: joinNl ls := by
  cases ls with
  | nil => exact absurd rfl h
  | cons y ys => rfl

theorem joinNl_splitNl (s : Str) : joinNl (splitNl s) = s := by
  induction s with
  | nil => rfl
  | cons c rest ih =>
    simp only [splitNl]
    cases hsp : splitNl rest with
    | nil => exact absurd hsp (splitNl_ne_nil rest)
    | cons l ls =>
      rw [hsp] at ih
      by_cases h : c = nlc
      · subst h
        simpa [joinNl] using ih
      · simp only [h, if_false]
        cases ls with
        | nil => simp [joinNl] at ih ⊢; simpa using ih
        | cons l2 ls2 => simp [joinNl] at ih ⊢; simpa using ih

theorem splitNl_cons_noNl (l t : Str) (h : nlc ∉ l) : splitNl (l ++ nlc :: t) = l :: splitNl t := by
  induction l with
  | nil =>
    simp only [List.nil_append, splitNl]
    cases hsp : splitNl t with
    | nil => exact absurd hsp (splitNl_ne_nil t)
    | cons x xs => simp
  | cons c l' ih =>
    have hc : c ≠ nlc := fun he => h (he ▸ List.mem_cons_self c l')
    have h' : nlc ∉ l' := fun he => h (List.mem_cons_of_mem c he)
    simp only [List.cons_append, splitNl, List.append_eq]
    rw [ih h']
    simp [hc]

theorem splitNl_joinNl_pre (pre : List Str) (b : Str) (h : ∀ l ∈ pre, nlc ∉ l) :
    splitNl (joinNl (pre ++ [b])) = pre ++ splitNl b := by
  induction pre with
  | nil => simp [joinNl]
  | cons x pre' ih =>
    rw [List.cons_append, joinNl_cons x (pre' ++ [b]) (by simp),
        splitNl_cons_noNl x _ (h x (List.mem_cons_self x pre')),
        ih fun l hl => h l (List.mem_cons_of_mem x hl)]
    rfl

theorem breakAtSep_cons_ne (l : Str) (ls : List Str) (h : l ≠ sepLine) :
    breakAtSep (l :: ls) = (breakAtSep ls).map fun p => (l :: p.1, p.2) := by
  simp only [breakAtSep, h, if_false]
  cases breakAtSep ls with
  | none => rfl
  | some p => rfl

theorem breakAtSep_sep (ls : List Str) : breakAtSep (sepLine :: ls) = some ([], ls) := by
  simp [breakAtSep]

theorem cons_ne_sepLine {c : Char} (hc : c ≠ '*') (s : Str) : c :: s ≠ sepLine := by
  intro h
  have hrep : sepLine = '*' :: List.replicate 79 '*' := rfl
  rw [hrep] at h
  injection h with h1 _
  exact hc h1

theorem ne_sepLine_of_length {s : Str} (h : s.length = 64) : s ≠ sepLine := by
  intro he
  rw [he] at h
  simp [sepLine] at h

theorem takeAfter_append (p s : Str) : takeAfter p (p ++ s) = some s := by
  induction p with
  | nil => rfl
  | cons c ps ih => simp [takeAfter, ih]

theorem natToStrCore_acc (fuel : Nat) : ∀ (n : Nat) (acc : Str),
    natToStrCore fuel n acc = natToStrCore fuel n [] ++ acc := by
  induction fuel with
  | zero => intro n acc; rfl
  | succ fuel ih =>
    intro n acc
    simp only [natToStrCore]
    by_cases h : n < 10
    · simp [h]
    · simp only [h, if_false]
      rw [ih (n / 10) (digitChar (n % 10) :: acc), ih (n / 10) [digitChar (n % 10)]]
      simp

theorem digit_facts : ∀ k, k < 10 → isDigitChar (digitChar k) = true ∧ digitVal (digitChar k) = k := by
  decide

theorem natToStrCore_spec (fuel : Nat) : ∀ n, n < fuel →
    (natToStrCore fuel n []).all isDigitChar = true ∧
    (natToStrCore fuel n []).foldl (fun a c => a * 10 + digitVal c) 0 = n ∧
    natToStrCore fuel n [] ≠ [] := by
  induction fuel with
  | zero => intro n h; exact absurd h (Nat.not_lt_zero n)
  | succ fuel ih =>
    intro n hn
    simp only [natToStrCore]
    by_cases h : n < 10
    · simp only [h, if_true]
      refine ⟨by simp [(digit_facts n h).1], ?_, by simp⟩
      simp [(digit_facts n h).2]
    · simp only [h, if_false]
      rw [natToStrCore_acc]
      have hdiv : n / 10 < fuel := by omega
      obtain ⟨ha, hf, hne⟩ := ih (n / 10) hdiv
      have hd := digit_facts (n % 10) (Nat.mod_lt n (by omega))
      refine ⟨?_, ?_, by simp⟩
      · rw [List.all_append]
        simp [ha, hd.1]
      · rw [List.foldl_append, hf]
        simp only [List.foldl_cons, List.foldl_nil]
        rw [hd.2]
        omega

theorem strToNat_natToStr (n : Nat) : strToNat (natToStr n) = some n := by
  obtain ⟨ha, hf, hne⟩ := natToStrCore_spec (n + 1) n (Nat.lt_succ_self n)
  unfold natToStr
  cases hs : natToStrCore (n + 1) n [] with
  | nil => exact absurd hs hne
  | cons c cs =>
    rw [hs] at ha hf
    simp [strToNat, ha, hf]

theorem splitHeaderLine_emit (k v : Str) (hk : ':' ∉ k) :
    splitHeaderLine (k ++ ':' :: ' ' :: v) = some (k, v) := by
  induction k with
  | nil => simp [splitHeaderLine]
  | cons c k' ih =>
    have hc : c ≠ ':' := fun he => hk (he ▸ List.mem_cons_self c k')
    have hk' : ':' ∉ k' := fun he => hk (List.mem_cons_of_mem c he)
    simp only [List.cons_append, splitHeaderLine, List.append_eq]
    rw [ih hk']
    simp [hc]

/-- The name/value pairs emitted by the serializer, one per header value,
in header order. -/
def emitPairs (h : Headers) : List (Str × Str) :=
  h.flatMap fun p => p.2.map fun v => (p.1, v)

theorem headerLine_ne_nil (k v : Str) : k ++ ':' :: ' ' :: v ≠ [] := by
  cases k <;> simp

theorem parseHeaderLines_emit (pairs : List (Str × Str)) (rest : List Str)
    (hp : ∀ p ∈ pairs, ':' ∉ p.1) :
    parseHeaderLines ((pairs.map fun p => p.1 ++ ':' :: ' ' :: p.2) ++ [] :: [] :: rest) =
      some (pairs, rest) := by
  induction pairs with
  | nil => simp [parseHeaderLines]
  | cons p ps ih =>
    simp only [List.map_cons, List.cons_append, parseHeaderLines, List.append_eq]
    rw [splitHeaderLine_emit p.1 p.2 (hp p (List.mem_cons_self p ps)),
        ih fun q hq => hp q (List.mem_cons_of_mem p hq)]
    simp [headerLine_ne_nil p.1 p.2]

/-- Fold `http.Header.Add` over parsed name/value pairs. -/
def foldAdd (acc : Headers) (ps : List (Str × Str)) : Headers :=
  ps.foldl (fun h p => addHeader h p.1 p.2) acc

theorem aGet_append_none {α : Type} (acc l : List (Str × α)) (k : Str)
    (h : aGet acc k = none) : aGet (acc ++ l) k = aGet l k := by
  induction acc with
  | nil => rfl
  | cons q acc' ih =>
    obtain ⟨k2, v2⟩ := q
    simp only [aGet, List.cons_append] at h ⊢
    by_cases hq : k2 = k
    · simp [hq] at h
    · simp only [hq, if_false] at h ⊢
      exact ih h

theorem aSet_append_hit {α : Type} (acc : List (Str × α)) (k : Str) (u v : α)
    (h : aGet acc k = none) : aSet (acc ++ [(k, u)]) k v = acc ++ [(k, v)] := by
  induction acc with
  | nil => simp [aSet]
  | cons q acc' ih =>
    obtain ⟨k2, v2⟩ := q
    simp only [aGet] at h
    by_cases hq : k2 = k
    · simp [hq] at h
    · simp only [hq, if_false] at h
      simp only [List.cons_append, aSet, hq, if_false, List.append_eq]
      rw [ih h]

theorem foldAdd_vals (vs : List Str) : ∀ (acc : Headers) (k : Str) (u : List Str),
    aGet acc k = none →
    foldAdd (acc ++ [(k, u)]) (vs.map fun v => (k, v)) = acc ++ [(k, u ++ vs)] := by
  induction vs with
  | nil => intro acc k u _; simp [foldAdd]
  | cons v vs' ih =>
    intro acc k u hacc
    simp only [List.map_cons, foldAdd, List.foldl_cons]
    have hget : aGet (acc ++ [(k, u)]) k = some u := by
      rw [aGet_append_none acc _ k hacc]
      simp [aGet]
    have haddv : addHeader (acc ++ [(k, u)]) k v = acc ++ [(k, u ++ [v])] := by
      simp only [addHeader, hget]
      exact aSet_append_hit acc k u (u ++ [v]) hacc
    rw [haddv]
    have := ih acc k (u ++ [v]) hacc
    simp only [foldAdd] at this
    rw [this]
    simp

theorem foldAdd_emit (H : Headers) : ∀ acc : Headers,
    (∀ p ∈ H, aGet acc p.1 = none ∧ p.2 ≠ []) →
    (H.map Prod.fst).Nodup →
    foldAdd acc (emitPairs H) = acc ++ H := by
  induction H with
  | nil => intro acc _ _; simp [foldAdd, emitPairs]
  | cons p H' ih =>
    intro acc hcond hnd
    obtain ⟨k, vs⟩ := p
    obtain ⟨hacc, hvs⟩ := hcond (k, vs) (List.mem_cons_self _ _)
    cases vs with
    | nil => exact absurd rfl hvs
    | cons v0 vtl =>
      simp only [emitPairs, List.flatMap_cons, foldAdd, List.map_cons, List.cons_append,
        List.foldl_append, List.foldl_cons]
      have h1 : addHeader acc k v0 = acc ++ [(k, [v0])] := by
        rw [addHeader, hacc]
      rw [h1]
      have h2 := foldAdd_vals vtl acc k [v0] hacc
      simp only [foldAdd, List.singleton_append] at h2
      rw [h2]
      have hnd' : (H'.map Prod.fst).Nodup := (List.nodup_cons.mp hnd).2
      have hknot : k ∉ H'.map Prod.fst := (List.nodup_cons.mp hnd).1
      have := ih (acc ++ [(k, v0 :: vtl)]) ?_ hnd'
      · simp only [foldAdd, emitPairs] at this
        rw [this]
        simp
      · intro q hq
        obtain ⟨hq1, hq2⟩ := hcond q (List.mem_cons_of_mem _ hq)
        refine ⟨?_, hq2⟩
        rw [aGet_append_none acc _ q.1 hq1]
        have hne : k ≠ q.1 := fun he => hknot (he ▸ List.mem_map_of_mem Prod.fst hq)
        simp [aGet, hne]

theorem headerLines_emitPairs (H : Headers) :
    H.flatMap (fun p => p.2.map fun v => p.1 ++ ':' :: ' ' :: v) =
    (emitPairs H).map fun p => p.1 ++ ':' :: ' ' :: p.2 := by
  induction H with
  | nil => simp [emitPairs]
  | cons p H' ih =>
    simp only [emitPairs, List.flatMap_cons, List.map_append, List.map_map] at ih ⊢
    rw [ih]
    rfl

theorem nlc_not_in_natToStr (n : Nat) : nlc ∉ natToStr n := by
  intro hm
  have ha := (natToStrCore_spec (n + 1) n (Nat.lt_succ_self n)).1
  unfold natToStr at hm
  have := List.all_eq_true.mp ha nlc hm
  simp [isDigitChar, nlc] at this

/-- A canonical recorded request: what the serializer can emit losslessly
(newline-free fields, sorted distinct nonempty headers, colon-free names,
a 64-character previous hash). -/
def canonicalReq (r : RecordedRequest) : Prop :=
  r.PreviousRequest.length = 64 ∧
  nlc ∉ r.PreviousRequest ∧ nlc ∉ r.ServerAddress ∧ nlc ∉ r.Protocol ∧ nlc ∉ r.Request ∧
  (∀ p ∈ r.Header, ':' ∉ p.1 ∧ nlc ∉ p.1 ∧ p.2 ≠ [] ∧ ∀ v ∈ p.2, nlc ∉ v) ∧
  (r.Header.map Prod.fst).Nodup ∧
  sortHeaders r.Header = r.Header

instance (r : RecordedRequest) : Decidable (canonicalReq r) := by
  unfold canonicalReq
  infer_instance


theorem nlc_not_in_headerLine (H : Headers)
    (hH : ∀ p ∈ H, ':' ∉ p.1 ∧ nlc ∉ p.1 ∧ p.2 ≠ [] ∧ ∀ v ∈ p.2, nlc ∉ v)
    (l : Str) (hl : l ∈ (emitPairs H).map fun p => p.1 ++ ':' :: ' ' :: p.2) : nlc ∉ l := by
  simp only [List.mem_map, emitPairs, List.mem_flatMap] at hl
  obtain ⟨p, ⟨q, hq, v, hv, hpv⟩, hpe⟩ := hl
  subst hpv
  subst hpe
  intro hm
  rcases List.mem_append.mp hm with hm | hm
  · exact (hH q hq).2.1 hm
  · rcases List.mem_cons.mp hm with he | hm
    · simp [nlc] at he
    · rcases List.mem_cons.mp hm with he | hm
      · simp [nlc] at he
      · exact (hH q hq).2.2.2 v hv hm

theorem Deserialize_Serialize (r : RecordedRequest) (h : canonicalReq r) :
    Deserialize (Serialize r) = .ok r := by
  obtain ⟨hlen, hpn, hsn, hprn, hreqn, hH, hnd, hsort⟩ := h
  have hemit : ∀ p ∈ emitPairs r.Header, ':' ∉ p.1 := by
    intro p hp
    simp only [emitPairs, List.mem_flatMap, List.mem_map] at hp
    obtain ⟨q, hq, v, _, hpe⟩ := hp
    rw [← hpe]
    exact (hH q hq).1
  have hhl : headerLines r.Header = (emitPairs r.Header).map fun p => p.1 ++ ':' :: ' ' :: p.2 := by
    rw [headerLines, hsort]
    exact headerLines_emitPairs r.Header
  have hserL : serializeLines r =
      (r.PreviousRequest ::
       (gs "Server Address: " ++ r.ServerAddress) ::
       (gs "Port: " ++ natToStr r.Port) ::
       (gs "Protocol: " ++ r.Protocol) ::
       sepLine ::
       r.Request ::
       (((emitPairs r.Header).map fun p => p.1 ++ ':' :: ' ' :: p.2) ++ [[], []])) ++ [r.Body] := by
    rw [serializeLines, hhl]
    simp only [List.cons_append, List.append_assoc]
    rfl
  have hpre : ∀ l ∈ (r.PreviousRequest ::
       (gs "Server Address: " ++ r.ServerAddress) ::
       (gs "Port: " ++ natToStr r.Port) ::
       (gs "Protocol: " ++ r.Protocol) ::
       sepLine ::
       r.Request ::
       (((emitPairs r.Header).map fun p => p.1 ++ ':' :: ' ' :: p.2) ++ [[], []])), nlc ∉ l := by
    intro l hl
    rcases List.mem_cons.mp hl with rfl | hl
    · exact hpn
    rcases List.mem_cons.mp hl with rfl | hl
    · intro hm
      rcases List.mem_append.mp hm with hm | hm
      · revert hm; decide
      · exact hsn hm
    rcases List.mem_cons.mp hl with rfl | hl
    · intro hm
      rcases List.mem_append.mp hm with hm | hm
      · revert hm; decide
      · exact nlc_not_in_natToStr r.Port hm
    rcases List.mem_cons.mp hl with rfl | hl
    · intro hm
      rcases List.mem_append.mp hm with hm | hm
      · revert hm; decide
      · exact hprn hm
    rcases List.mem_cons.mp hl with rfl | hl
    · intro hm
      rw [sepLine] at hm
      have := (List.mem_replicate.mp hm).2
      simp [nlc] at this
    rcases List.mem_cons.mp hl with rfl | hl
    · exact hreqn
    rcases List.mem_append.mp hl with hl | hl
    · exact nlc_not_in_headerLine r.Header hH l hl
    · rcases List.mem_cons.mp hl with rfl | hl
      · simp
      · rcases List.mem_cons.mp hl with rfl | hl
        · simp
        · simp at hl
  have hsplit : splitNl (Serialize r) =
      r.PreviousRequest ::
      (gs "Server Address: " ++ r.ServerAddress) ::
      (gs "Port: " ++ natToStr r.Port) ::
      (gs "Protocol: " ++ r.Protocol) ::
      sepLine ::
      r.Request ::
      (((emitPairs r.Header).map fun p => p.1 ++ ':' :: ' ' :: p.2) ++ [] :: [] :: splitNl r.Body) := by
    rw [Serialize, hserL, splitNl_joinNl_pre _ _ hpre]
    simp
  have hb : breakAtSep (splitNl (Serialize r)) =
      some ([r.PreviousRequest,
             gs "Server Address: " ++ r.ServerAddress,
             gs "Port: " ++ natToStr r.Port,
             gs "Protocol: " ++ r.Protocol],
            r.Request ::
            (((emitPairs r.Header).map fun p => p.1 ++ ':' :: ' ' :: p.2) ++ [] :: [] :: splitNl r.Body)) := by
    have hne2 : gs "Server Address: " ++ r.ServerAddress ≠ sepLine := by
      rw [show gs "Server Address: " ++ r.ServerAddress =
            'S' :: (gs "erver Address: " ++ r.ServerAddress) from rfl]
      exact cons_ne_sepLine (by decide) _
    have hne3 : gs "Port: " ++ natToStr r.Port ≠ sepLine := by
      rw [show gs "Port: " ++ natToStr r.Port =
            'P' :: (gs "ort: " ++ natToStr r.Port) from rfl]
      exact cons_ne_sepLine (by decide) _
    have hne4 : gs "Protocol: " ++ r.Protocol ≠ sepLine := by
      rw [show gs "Protocol: " ++ r.Protocol =
            'P' :: (gs "rotocol: " ++ r.Protocol) from rfl]
      exact cons_ne_sepLine (by decide) _
    rw [hsplit,
        breakAtSep_cons_ne _ _ (ne_sepLine_of_length hlen),
        breakAtSep_cons_ne _ _ hne2,
        breakAtSep_cons_ne _ _ hne3,
        breakAtSep_cons_ne _ _ hne4,
        breakAtSep_sep]
    rfl
  unfold Deserialize
  rw [hb]
  simp only
  rw [takeAfter_append (gs "Server Address: ") r.ServerAddress,
      takeAfter_append (gs "Port: ") (natToStr r.Port),
      takeAfter_append (gs "Protocol: ") r.Protocol]
  simp only
  rw [strToNat_natToStr r.Port]
  simp only
  rw [parseHeaderLines_emit (emitPairs r.Header) (splitNl r.Body) hemit]
  simp only
  have hfa := foldAdd_emit r.Header []
    (fun p hp => ⟨rfl, ((hH p hp).2.2.1)⟩) hnd
  simp only [foldAdd, List.nil_append] at hfa
  rw [hfa, joinNl_splitNl]

/-- The literal replacement token of the redactor. -/
def REDACTED : Str := gs "REDACTED"

/-- Modelled from the spec: the redactor's string rewrite (the `redact`
package is not among the sources).  A single left-to-right scan; at each
position the non-empty secrets are tried in list order and the first
match is replaced by `REDACTED`, scanning resuming after the match
(Go regexp alternation semantics, matching `redact.NewRedact`'s compile
error return and pinned against the store redaction test vectors).  The
first argument is fuel, always more than the length of the string. -/
def redactScanCore : Nat → List Str → Str → Str
  | 0, _, s => s
  | fuel + 1, secrets, s =>
    match s with
    | [] => []
    | c :: rest =>
      match secrets.find? (fun sec => !sec.isEmpty && sec.isPrefixOf (c :: rest)) with
      | some sec => REDACTED ++ redactScanCore fuel secrets (rest.drop (sec.length - 1))
      | none => c :: redactScanCore fuel secrets rest

/-- Modelled from the spec: `redact_string` / `redact_bytes`; strings and
byte slices share the `Str` model. -/
def redactStr (secrets : List Str) (s : Str) : Str :=
  redactScanCore (s.length + 1) secrets s

/-- Modelled from the spec: `redact_headers` — each header value is
redacted, names untouched. -/
def redactHeaderVals (secrets : List Str) (h : Headers) : Headers :=
  h.map fun p => (p.1, p.2.map (redactStr secrets))

/-- Store test vector: a secret inside the request line is replaced. -/
theorem redact_vector_request_line :
    redactStr [gs "abc"] (gs "GET /path/with/secret/abc HTTP/1.1") =
    gs "GET /path/with/secret/REDACTED HTTP/1.1" := by
  decide

/-- Store test vector: a secret inside a header value is replaced. -/
theorem redact_vector_header :
    redactStr [gs "secret_token_123"] (gs "Bearer secret_token_123") =
    gs "Bearer REDACTED" := by
  decide

/-- Store test vector: overlapping secrets — the body secret
`password123` wins over its substring secret `123` because matching is a
single scan, not a sequential fold over the secret list. -/
theorem redact_vector_multiple :
    redactStr [gs "abc", gs "123", gs "key_value_xyz", gs "password123"]
        (gs "GET /path/abc?token=123 HTTP/1.1") =
      gs "GET /path/REDACTED?token=REDACTED HTTP/1.1" ∧
    redactStr [gs "abc", gs "123", gs "key_value_xyz", gs "password123"]
        (gs "key_value_xyz") = REDACTED ∧
    redactStr [gs "abc", gs "123", gs "key_value_xyz", gs "password123"]
        (gs "user=test&password=password123") =
      gs "user=test&password=REDACTED" := by
  decide

/-- Store test vector: an empty secret in the list is ignored. -/
theorem redact_vector_empty_secret :
    redactStr [[], gs "abc"] (gs "GET /path/abc HTTP/1.1") =
    gs "GET /path/REDACTED HTTP/1.1" := by
  decide

/-- Does `pat` occur as a contiguous substring of `s`? -/
def containsSubstr : Str → Str → Bool
  | [], pat => pat.isEmpty
  | c :: rest, pat => pat.isPrefixOf (c :: rest) || containsSubstr rest pat

theorem redactScanCore_no_match (secrets : List Str) : ∀ (fuel : Nat) (s : Str),
    (∀ sec ∈ secrets, sec = [] ∨ containsSubstr s sec = false) →
    redactScanCore fuel secrets s = s := by
  intro fuel
  induction fuel with
  | zero => intro s _; rfl
  | succ fuel ih =>
    intro s h
    cases s with
    | nil => rfl
    | cons c rest =>
      have hfind : secrets.find? (fun sec => !sec.isEmpty && sec.isPrefixOf (c :: rest)) = none := by
        rw [List.find?_eq_none]
        intro sec hsec
        rcases h sec hsec with he | hnc
        · simp [he, List.isEmpty]
        · simp only [containsSubstr, Bool.or_eq_false_iff] at hnc
          simp [hnc.1]
      rw [redactScanCore, hfind]
      have ih2 : redactScanCore fuel secrets rest = rest := by
        apply ih
        intro sec hsec
        rcases h sec hsec with he | hnc
        · exact Or.inl he
        · simp only [containsSubstr, Bool.or_eq_false_iff] at hnc
          exact Or.inr hnc.2
      rw [ih2]

theorem redactStr_idem_of_clean (secrets : List Str) (s : Str)
    (h : ∀ sec ∈ secrets, sec = [] ∨ containsSubstr (redactStr secrets s) sec = false) :
    redactStr secrets (redactStr secrets s) = redactStr secrets s :=
  redactScanCore_no_match secrets _ (redactStr secrets s) h

mutual

/-- JSON-like values of a decoded body segment (`map[string]any`), with
inlined list constructors so that all recursion is structural. -/
inductive JVal where
  | str : Str → JVal
  | num : Int → JVal
  | boolean : Bool → JVal
  | null : JVal
  | arr : JArr → JVal
  | obj : JObj → JVal

/-- An array of JSON-like values. -/
inductive JArr where
  | nil : JArr
  | cons : JVal → JArr → JArr

/-- An object: ordered key/value pairs. -/
inductive JObj where
  | nil : JObj
  | cons : Str → JVal → JObj → JObj

end

mutual

/-- Modelled from the spec: `redact_map` — redact every string-typed leaf,
recursing into nested maps and arrays; non-string leaves and keys are
preserved. -/
def redactJVal (secrets : List Str) : JVal → JVal
  | .str s => .str (redactStr secrets s)
  | .num n => .num n
  | .boolean b => .boolean b
  | .null => .null
  | .arr l => .arr (redactJArr secrets l)
  | .obj l => .obj (redactJObj secrets l)

/-- Redact every element of an array. -/
def redactJArr (secrets : List Str) : JArr → JArr
  | .nil => .nil
  | .cons v t => .cons (redactJVal secrets v) (redactJArr secrets t)

/-- Redact every value of an object; keys untouched. -/
def redactJObj (secrets : List Str) : JObj → JObj
  | .nil => .nil
  | .cons k v t => .cons k (redactJVal secrets v) (redactJObj secrets t)

end

mutual

/-- No non-empty secret occurs in any string leaf of the value. -/
def cleanJVal (secrets : List Str) : JVal → Bool
  | .str s => secrets.all fun sec => sec.isEmpty || !containsSubstr s sec
  | .num _ => true
  | .boolean _ => true
  | .null => true
  | .arr l => cleanJArr secrets l
  | .obj l => cleanJObj secrets l

/-- No non-empty secret occurs in any string leaf of the array. -/
def cleanJArr (secrets : List Str) : JArr → Bool
  | .nil => true
  | .cons v t => cleanJVal secrets v && cleanJArr secrets t

/-- No non-empty secret occurs in any string leaf of the object values. -/
def cleanJObj (secrets : List Str) : JObj → Bool
  | .nil => true
  | .cons _ v t => cleanJVal secrets v && cleanJObj secrets t

end

mutual

theorem redactJVal_of_clean (secrets : List Str) :
    ∀ v : JVal, cleanJVal secrets v = true → redactJVal secrets v = v
  | .str s, h => by
    simp only [cleanJVal, List.all_eq_true] at h
    simp only [redactJVal, JVal.str.injEq]
    apply redactScanCore_no_match
    intro sec hsec
    have := h sec hsec
    rcases Bool.or_eq_true_iff.mp this with he | hnc
    · exact Or.inl (by simpa [List.isEmpty_iff] using he)
    · exact Or.inr (by simpa using hnc)
  | .num n, _ => rfl
  | .boolean b, _ => rfl
  | .null, _ => rfl
  | .arr l, h => by
    simp only [cleanJVal] at h
    simp only [redactJVal, JVal.arr.injEq]
    exact redactJArr_of_clean secrets l h
  | .obj l, h => by
    simp only [cleanJVal] at h
    simp only [redactJVal, JVal.obj.injEq]
    exact redactJObj_of_clean secrets l h

theorem redactJArr_of_clean (secrets : List Str) :
    ∀ l : JArr, cleanJArr secrets l = true → redactJArr secrets l = l
  | .nil, _ => rfl
  | .cons v t, h => by
    simp only [cleanJArr, Bool.and_eq_true] at h
    simp only [redactJArr, JArr.cons.injEq]
    exact ⟨redactJVal_of_clean secrets v h.1, redactJArr_of_clean secrets t h.2⟩

theorem redactJObj_of_clean (secrets : List Str) :
    ∀ l : JObj, cleanJObj secrets l = true → redactJObj secrets l = l
  | .nil, _ => rfl
  | .cons k v t, h => by
    simp only [cleanJObj, Bool.and_eq_true] at h
    simp only [redactJObj, JObj.cons.injEq]
    exact ⟨trivial, redactJVal_of_clean secrets v h.1, redactJObj_of_clean secrets t h.2⟩

end

/-- One message step of `RecordingHTTPSProxy.pumpWebsocket`: append a
newline to the frame, redact, build the log record
`<dir><len(redacted)> <redacted>`, and forward the newline-extended
(unredacted) bytes to the peer.  Returns (log record, forwarded bytes). -/
def pumpStep (secrets : List Str) (dir : Str) (buf : Str) : Str × Str :=
  let buf2 := buf ++ [nlc]
  let red := redactStr secrets buf2
  (dir ++ natToStr red.length ++ ' ' :: red, buf2)

/-- One `{header_name, regex, replacement}` entry of
`response_header_replacements`. -/
structure HeaderReplacement where
  Header : Str
  Regex : Str
  Replace : Str

/-- Modelled from the spec: `config.EndpointConfig` (the config package is
not among the sources; fields per the spec's data model and their uses in
the proxy source). -/
structure EndpointConfig where
  SourcePort : Nat
  TargetHost : Str
  TargetPort : Nat
  TargetType : Str
  Health : Str
  RedactRequestHeaders : List Str
  ResponseHeaderReplacements : List HeaderReplacement

/-- The Go regexp engine, abstracted: `compile` returns `none` exactly on
a syntactically invalid pattern (where `regexp.MustCompile` panics), and a
compiled regex is its `ReplaceAllString` function taking the subject and
the replacement string. -/
structure RegexEngine where
  compile : Str → Option (Str → Str → Str)

/-- `replaceRegex` of the proxy source: `regexp.MustCompile` followed by
`ReplaceAllString`; the `MustCompile` panic on an invalid pattern is
modelled as `Except.error ()`. -/
def replaceRegex (E : RegexEngine) (s regex replacement : Str) : Except Unit Str :=
  match E.compile regex with
  | none => .error ()
  | some re => .ok (re s replacement)

/-- The inner loop of `applyResponseHeaderReplacements`: rewrite each
value of the matched header in order, aborting on the first panic. -/
def mapRR (E : RegexEngine) (rep : HeaderReplacement) : List Str → Except Unit (List Str)
  | [] => .ok []
  | v :: vs =>
    match replaceRegex E v rep.Regex rep.Replace with
    | .error e => .error e
    | .ok v2 =>
      match mapRR E rep vs with
      | .error e => .error e
      | .ok vs2 => .ok (v2 :: vs2)

/-- `RecordingHTTPSProxy.applyResponseHeaderReplacements`: for each
configured replacement whose header is present, rewrite every value in
place; a panic anywhere aborts the handler. -/
def applyRHR (E : RegexEngine) : List HeaderReplacement → Headers → Except Unit Headers
  | [], h => .ok h
  | rep :: reps, h =>
    match aGet h rep.Header with
    | none => applyRHR E reps h
    | some vs =>
      match mapRR E rep vs with
      | .error e => .error e
      | .ok vs2 => applyRHR E reps (aSet h rep.Header vs2)

/-- `store.RecordedResponse`. -/
structure RecordedResponse where
  StatusCode : Nat
  Header : Headers
  Body : Str
deriving DecidableEq, Repr

/-- `store.RecordInteraction`. -/
structure RecordInteraction where
  Request : RecordedRequest
  ShaSum : Str
  Response : RecordedResponse
deriving DecidableEq, Repr

/-- `store.RecordFile`. -/
structure RecordFile where
  RecordID : Str
  Interactions : List RecordInteraction
deriving DecidableEq, Repr

/-- Modelled from the spec: `store.NewRecordedResponse` (implementation
not among the sources): package the upstream status, post-rewrite headers
and raw body, redacting headers and body before recording. -/
def NewRecordedResponse (secrets : List Str) (status : Nat) (h : Headers) (body : Str) :
    RecordedResponse :=
  { StatusCode := status
  , Header := redactHeaderVals secrets h
  , Body := redactStr secrets body }

/-- Modelled from the spec: `RecordedRequest.ComputeSum` — hex SHA-256
over the canonical Serialize form.  SHA-256 is modelled as a
collision-free function, so the fingerprint is the canonical form itself
and fingerprint equality coincides with equality of the hashed bytes. -/
def ComputeSum (r : RecordedRequest) : Str := Serialize r

/-- Modelled from the spec: `RecordedRequest.GetRecordingFileName` — the
canonical fingerprint computed with `previous_request` forced to
`HeadSHA`. -/
def GetRecordingFileName (r : RecordedRequest) : Str :=
  ComputeSum { r with PreviousRequest := HeadSHA }

/-- Per-endpoint mutable state of `RecordingHTTPSProxy`. -/
structure ProxyState where
  prevRequestSHA : Str
  seenFiles : List (Str × RecordFile)
deriving DecidableEq, Repr

/-- `NewRecordingHTTPSProxy`: chain cursor at `HeadSHA`, no seen files. -/
def initialProxyState : ProxyState :=
  { prevRequestSHA := HeadSHA, seenFiles := [] }

/-- Contents of one on-disk `<fileName>.json`: a marshalled record file,
or empty after a truncating open whose write failed. -/
inductive FileContent where
  | json : RecordFile → FileContent
  | empty : FileContent
deriving DecidableEq, Repr

/-- The JSON artifacts on disk, keyed by `fileName`. -/
abbrev Disk := List (Str × FileContent)

/-- The incoming HTTP request as the handler sees it: `url` is
`req.URL.String()` as used in the recorded request line, `path` and
`rawQuery` its components. -/
structure RequestIn where
  method : Str
  url : Str
  path : Str
  rawQuery : Str
  headers : Headers
deriving DecidableEq, Repr

/-- Results of the effectful steps of one request, injected as inputs:
the request body read, an injected recording-file-name failure, the
upstream round trip (status, headers), the upstream body read, and the
recording file open and write. -/
structure Effects where
  bodyRead : Except Str Str
  fileNameErr : Option Str
  upstreamDo : Except Str (Nat × Headers)
  respBodyRead : Except Str Str
  diskOpen : Except Str Unit
  diskWrite : Except Str Unit
deriving Repr

/-- What the client connection observed when the handler returned: a
status and body, a completed WebSocket session, or a Go panic. -/
inductive HandlerOutcome where
  | response : Nat → Str → HandlerOutcome
  | wsHandled : HandlerOutcome
  | panicked : HandlerOutcome
deriving DecidableEq, Repr

/-- The outcome of `handleRequest` together with the updated proxy state
and disk. -/
structure HandleResult where
  outcome : HandlerOutcome
  state : ProxyState
  disk : Disk
deriving DecidableEq, Repr

/-- Go `http.Header.Get`: first value of the named header. -/
def headerGet (h : Headers) (k : Str) : Option Str :=
  match aGet h k with
  | some (v :: _) => some v
  | _ => none

/-- Modelled from the spec: `store.NewRecordedRequest` — request line
`"<METHOD> <full-URL> HTTP/1.1"`, headers and body copied, previous hash
and endpoint coordinates filled in (pinned by the store tests). -/
def NewRecordedRequest (cfg : EndpointConfig) (prev : Str) (req : RequestIn) (body : Str) :
    RecordedRequest :=
  { Request := req.method ++ ' ' :: req.url ++ gs " HTTP/1.1"
  , Header := req.headers
  , Body := body
  , PreviousRequest := prev
  , ServerAddress := cfg.TargetHost
  , Port := cfg.TargetPort
  , Protocol := cfg.TargetType }

/-- Store test vector: `NewRecordedRequest` with a body. -/
theorem new_recorded_request_vector :
    NewRecordedRequest
      { SourcePort := 0, TargetHost := gs "example.com", TargetPort := 443,
        TargetType := gs "https", Health := [], RedactRequestHeaders := [],
        ResponseHeaderReplacements := [] }
      HeadSHA
      { method := gs "POST", url := gs "http://example.com/test",
        path := gs "/test", rawQuery := [],
        headers := [(gs "Content-Type", [gs "application/json"])] }
      (gs "test body") =
    { Request := gs "POST http://example.com/test HTTP/1.1"
    , Header := [(gs "Content-Type", [gs "application/json"])]
    , Body := gs "test body"
    , PreviousRequest := HeadSHA
    , ServerAddress := gs "example.com"
    , Port := 443
    , Protocol := gs "https" } := by
  decide

/-- `RecordedRequest.RedactHeaders` / `redact_request_headers`: remove the
named headers (the proxy passes canonical names; exact match). -/
def removeHeaders (h : Headers) (names : List Str) : Headers :=
  h.filter fun p => !names.contains p.1

/-- Store test vector: removing one header keeps the others. -/
theorem remove_headers_vector :
    removeHeaders [(gs "Accept", [gs "application/xml"]),
                   (gs "Content-Type", [gs "application/json"])]
        [gs "Content-Type"] =
      [(gs "Accept", [gs "application/xml"])] ∧
    removeHeaders [(gs "Accept", [gs "application/xml"])] [gs "Non-Existent"] =
      [(gs "Accept", [gs "application/xml"])] ∧
    removeHeaders [(gs "Accept", [gs "application/xml"]),
                   (gs "Content-Type", [gs "application/json"])]
        [gs "Accept", gs "Content-Type"] = [] := by
  decide

/-- `RecordingHTTPSProxy.redactRequest`: build the recorded request, drop
the configured request headers, redact the remaining header values and
the request line.  (The source also redacts the decoded `BodySegments`;
those do not feed `Serialize` and are not modelled.) -/
def redactRequest (cfg : EndpointConfig) (secrets : List Str) (prev : Str)
    (req : RequestIn) (body : Str) : RecordedRequest :=
  let r0 := NewRecordedRequest cfg prev req body
  { r0 with
    Header := redactHeaderVals secrets (removeHeaders r0.Header cfg.RedactRequestHeaders)
  , Request := redactStr secrets r0.Request }

/-- The upstream URL built by `proxyRequest`: the scheme is the literal
`https`, host and port from the config, path and query from the request. -/
def buildProxyURL (cfg : EndpointConfig) (path query : Str) : Str :=
  gs "https://" ++ cfg.TargetHost ++ ':' :: natToStr cfg.TargetPort ++ path ++
    (if query = [] then [] else '?' :: query)

/-- The upstream URL built by `upgradeConnectionToWebsocket`: the scheme
is the literal `wss`. -/
def buildWsURL (cfg : EndpointConfig) (path query : Str) : Str :=
  gs "wss://" ++ cfg.TargetHost ++ ':' :: natToStr cfg.TargetPort ++ path ++
    (if query = [] then [] else '?' :: query)

/-- `RecordingHTTPSProxy.recordResponse`: on first sight of `fileName`
an empty record file is stored in `seenFiles` (the appended interaction
lives only in the local copy — the map value is never written back,
mirroring the source); the artifact is then rewritten with
create-or-truncate semantics, so a write failure after a successful open
leaves the file empty. -/
def recordResponse (st : ProxyState) (disk : Disk) (fileName : Str)
    (recReq : RecordedRequest) (shaSum : Str) (resp : RecordedResponse) (fx : Effects) :
    Except Str Unit × ProxyState × Disk :=
  let seen := aGet st.seenFiles fileName
  let seenFiles2 := match seen with
    | none => st.seenFiles ++ [(fileName, { RecordID := fileName, Interactions := [] })]
    | some _ => st.seenFiles
  let recordFile : RecordFile := match seen with
    | none => { RecordID := fileName, Interactions := [] }
    | some f => f
  let recordFile2 := { recordFile with
    Interactions := recordFile.Interactions ++
      [{ Request := recReq, ShaSum := shaSum, Response := resp }] }
  let st2 := { st with seenFiles := seenFiles2 }
  match fx.diskOpen with
  | .error e => (.error e, st2, disk)
  | .ok _ =>
    match fx.diskWrite with
    | .error e => (.error e, st2, aSet disk fileName .empty)
    | .ok _ => (.ok (), st2, aSet disk fileName (.json recordFile2))

/-- `RecordingHTTPSProxy.handleRequest`, the per-request lifecycle:
health short-circuit, canonicalize and redact, filename derivation and
first-sight reset, WebSocket dispatch, upstream proxying with response
header rewrite, response relay, recording, and chain advancement.
Error messages follow the source's `http.Error` calls; once the upstream
status has been written, a later `http.Error` can no longer change the
status and only appends to the body. -/
def handleRequest (cfg : EndpointConfig) (E : RegexEngine) (secrets : List Str)
    (st : ProxyState) (disk : Disk) (req : RequestIn) (fx : Effects) : HandleResult :=
  if req.path = cfg.Health then
    ⟨.response 200 [], st, disk⟩
  else
    match fx.bodyRead with
    | .error e => ⟨.response 500 (gs "Error recording request: " ++ e ++ [nlc]), st, disk⟩
    | .ok body =>
      let recReq := redactRequest cfg secrets st.prevRequestSHA req body
      match fx.fileNameErr with
      | some e => ⟨.response 500 (gs "Invalid recording file name: " ++ e ++ [nlc]), st, disk⟩
      | none =>
        let fileName := GetRecordingFileName recReq
        let recReq2 := if aGet st.seenFiles fileName = none
                       then { recReq with PreviousRequest := HeadSHA } else recReq
        if headerGet req.headers (gs "Upgrade") = some (gs "websocket") then
          ⟨.wsHandled, st, disk⟩
        else
          match fx.upstreamDo with
          | .error e => ⟨.response 500 (gs "Error proxying request: " ++ e ++ [nlc]), st, disk⟩
          | .ok (status, upHdrs) =>
            match applyRHR E cfg.ResponseHeaderReplacements upHdrs with
            | .error _ => ⟨.panicked, st, disk⟩
            | .ok upHdrs2 =>
              match fx.respBodyRead with
              | .error e =>
                ⟨.response status (gs "Error proxying request: " ++ e ++ [nlc]), st, disk⟩
              | .ok respBody =>
                let shaSum := ComputeSum recReq2
                let resp := NewRecordedResponse secrets status upHdrs2 respBody
                match recordResponse st disk fileName recReq2 shaSum resp fx with
                | (.error e, st2, disk2) =>
                  ⟨.response status (respBody ++ gs "Error recording response: " ++ e ++ [nlc]),
                   st2, disk2⟩
                | (.ok _, st2, disk2) =>
                  ⟨.response status respBody,
                   { st2 with prevRequestSHA :=
                       if fileName ≠ shaSum then shaSum else st2.prevRequestSHA },
                   disk2⟩

/-- Run a sequence of requests through one endpoint handler, threading
state and disk. -/
def runRequests (cfg : EndpointConfig) (E : RegexEngine) (secrets : List Str) :
    ProxyState → Disk → List (RequestIn × Effects) → ProxyState × Disk
  | st, disk, [] => (st, disk)
  | st, disk, (req, fx) :: rest =>
    let r := handleRequest cfg E secrets st disk req fx
    runRequests cfg E secrets r.state r.disk rest

/-- A regex engine whose every pattern compiles to the identity rewrite,
for concrete runs that configure no replacements. -/
def idEngine : RegexEngine := { compile := fun _ => some fun s _ => s }

/-- A small concrete endpoint configuration for concrete runs. -/
def cfg0 : EndpointConfig :=
  { SourcePort := 8080, TargetHost := gs "example.com", TargetPort := 443,
    TargetType := gs "https", Health := gs "/health", RedactRequestHeaders := [],
    ResponseHeaderReplacements := [] }

/-- All effects succeed: empty request body, 200 upstream with no headers
and empty body, disk open and write fine. -/
def okFx : Effects :=
  { bodyRead := .ok [], fileNameErr := none, upstreamDo := .ok (200, []),
    respBodyRead := .ok [], diskOpen := .ok (), diskWrite := .ok () }

/-- A plain `GET /x` request. -/
def getX : RequestIn :=
  { method := gs "GET", url := gs "/x", path := gs "/x", rawQuery := [], headers := [] }

theorem aGet_aSet_self {α : Type} (h : List (Str × α)) (k : Str) (v : α) :
    aGet (aSet h k v) k = some v := by
  induction h with
  | nil => simp [aSet, aGet]
  | cons q rest ih =>
    obtain ⟨k2, v2⟩ := q
    by_cases hk : k2 = k
    · simp [aSet, aGet, hk]
    · simp only [aSet, hk, if_false, aGet]
      exact ih

theorem aGet_aSet_ne {α : Type} (h : List (Str × α)) (k k2 : Str) (v : α) (hne : k2 ≠ k) :
    aGet (aSet h k v) k2 = aGet h k2 := by
  induction h with
  | nil =>
    simp only [aSet, aGet]
    rw [if_neg (fun he : k = k2 => hne he.symm)]
  | cons q rest ih =>
    obtain ⟨k3, v3⟩ := q
    by_cases hk : k3 = k
    · subst hk
      simp only [aSet, if_pos rfl, aGet]
      rw [if_neg (fun he : k3 = k2 => hne he.symm), if_neg (fun he : k3 = k2 => hne he.symm)]
    · simp only [aSet, hk, if_false, aGet]
      by_cases hk2 : k3 = k2
      · simp [hk2]
      · rw [if_neg hk2, if_neg hk2]
        exact ih

/-- The recorded request a non-health request produces, before the
first-sight reset: canonicalized from the live request with the current
chain cursor, then redacted. -/
def recReqOf (cfg : EndpointConfig) (secrets : List Str) (st : ProxyState)
    (req : RequestIn) (b : Str) : RecordedRequest :=
  redactRequest cfg secrets st.prevRequestSHA req b

/-- The recording file name of a request: its fingerprint under a forced
`HeadSHA` previous hash. -/
def fileNameOf (cfg : EndpointConfig) (secrets : List Str) (st : ProxyState)
    (req : RequestIn) (b : Str) : Str :=
  GetRecordingFileName (recReqOf cfg secrets st req b)

theorem handleRequest_success_new (cfg : EndpointConfig) (E : RegexEngine)
    (secrets : List Str) (st : ProxyState) (disk : Disk) (req : RequestIn) (fx : Effects)
    (b : Str) (status : Nat) (upHdrs upHdrs2 : Headers) (respBody : Str)
    (h1 : ¬ req.path = cfg.Health)
    (h2 : fx.bodyRead = .ok b)
    (h3 : fx.fileNameErr = none)
    (h4 : ¬ headerGet req.headers (gs "Upgrade") = some (gs "websocket"))
    (h5 : fx.upstreamDo = .ok (status, upHdrs))
    (h6 : applyRHR E cfg.ResponseHeaderReplacements upHdrs = .ok upHdrs2)
    (h7 : fx.respBodyRead = .ok respBody)
    (h8 : fx.diskOpen = .ok ())
    (h9 : fx.diskWrite = .ok ())
    (hseen : aGet st.seenFiles (fileNameOf cfg secrets st req b) = none) :
    handleRequest cfg E secrets st disk req fx =
      ⟨.response status respBody,
       ⟨st.prevRequestSHA,
        st.seenFiles ++ [(fileNameOf cfg secrets st req b,
                          ⟨fileNameOf cfg secrets st req b, []⟩)]⟩,
       aSet disk (fileNameOf cfg secrets st req b)
         (.json ⟨fileNameOf cfg secrets st req b,
                 [⟨{ recReqOf cfg secrets st req b with PreviousRequest := HeadSHA },
                   fileNameOf cfg secrets st req b,
                   NewRecordedResponse secrets status upHdrs2 respBody⟩]⟩)⟩ := by
  simp only [fileNameOf, recReqOf, GetRecordingFileName, ComputeSum] at hseen
  simp only [handleRequest, h1, if_false, h2, h3, h4, h5, h6, h7,
    recordResponse, h8, h9, fileNameOf, recReqOf, GetRecordingFileName, ComputeSum]
  simp [hseen]

theorem handleRequest_success_seen (cfg : EndpointConfig) (E : RegexEngine)
    (secrets : List Str) (st : ProxyState) (disk : Disk) (req : RequestIn) (fx : Effects)
    (b : Str) (status : Nat) (upHdrs upHdrs2 : Headers) (respBody : Str) (rf : RecordFile)
    (h1 : ¬ req.path = cfg.Health)
    (h2 : fx.bodyRead = .ok b)
    (h3 : fx.fileNameErr = none)
    (h4 : ¬ headerGet req.headers (gs "Upgrade") = some (gs "websocket"))
    (h5 : fx.upstreamDo = .ok (status, upHdrs))
    (h6 : applyRHR E cfg.ResponseHeaderReplacements upHdrs = .ok upHdrs2)
    (h7 : fx.respBodyRead = .ok respBody)
    (h8 : fx.diskOpen = .ok ())
    (h9 : fx.diskWrite = .ok ())
    (hseen : aGet st.seenFiles (fileNameOf cfg secrets st req b) = some rf) :
    handleRequest cfg E secrets st disk req fx =
      ⟨.response status respBody,
       ⟨if fileNameOf cfg secrets st req b ≠ ComputeSum (recReqOf cfg secrets st req b)
        then ComputeSum (recReqOf cfg secrets st req b) else st.prevRequestSHA,
        st.seenFiles⟩,
       aSet disk (fileNameOf cfg secrets st req b)
         (.json ⟨rf.RecordID,
                 rf.Interactions ++
                   [⟨recReqOf cfg secrets st req b,
                     ComputeSum (recReqOf cfg secrets st req b),
                     NewRecordedResponse secrets status upHdrs2 respBody⟩]⟩)⟩ := by
  simp only [fileNameOf, recReqOf, GetRecordingFileName, ComputeSum] at hseen
  simp only [handleRequest, h1, if_false, h2, h3, h4, h5, h6, h7,
    recordResponse, h8, h9, fileNameOf, recReqOf, GetRecordingFileName, ComputeSum]
  simp [hseen]

/-- The named header is present with at least one value. -/
def presentWithValue (h : Headers) (k : Str) : Prop :=
  ∃ v tl, aGet h k = some (v :: tl)

theorem mapRR_none (E : RegexEngine) (rep : HeaderReplacement)
    (hc : E.compile rep.Regex = none) (v : Str) (vs : List Str) :
    mapRR E rep (v :: vs) = .error () := by
  simp [mapRR, replaceRegex, hc]

theorem mapRR_some (E : RegexEngine) (rep : HeaderReplacement) (re : Str → Str → Str)
    (hc : E.compile rep.Regex = some re) :
    ∀ vs : List Str, mapRR E rep vs = .ok (vs.map fun v => re v rep.Replace) := by
  intro vs
  induction vs with
  | nil => rfl
  | cons v vs ih => simp [mapRR, replaceRegex, hc, ih]

theorem presentWithValue_aSet_iff (h : Headers) (k : Str) (vs : List Str)
    (f : Str → Str) (hget : aGet h k = some vs) (k2 : Str) :
    presentWithValue (aSet h k (vs.map f)) k2 ↔ presentWithValue h k2 := by
  by_cases hk : k2 = k
  · subst hk
    constructor
    · rintro ⟨v, tl, hv⟩
      rw [aGet_aSet_self] at hv
      injection hv with hv
      cases vs with
      | nil => simp at hv
      | cons v0 tl0 => exact ⟨v0, tl0, hget⟩
    · rintro ⟨v, tl, hv⟩
      rw [hget] at hv
      injection hv with hv
      subst hv
      exact ⟨f v, tl.map f, by rw [List.map_cons, aGet_aSet_self]⟩
  · unfold presentWithValue
    rw [aGet_aSet_ne _ _ _ _ hk]

theorem applyRHR_panic (E : RegexEngine) : ∀ (reps : List HeaderReplacement) (h : Headers),
    (∃ rep ∈ reps, presentWithValue h rep.Header ∧ E.compile rep.Regex = none) →
    applyRHR E reps h = .error () := by
  intro reps
  induction reps with
  | nil =>
    rintro h ⟨rep, hmem, _⟩
    simp at hmem
  | cons rep0 reps ih =>
    rintro h ⟨rep, hmem, hpres, hcomp⟩
    rcases List.mem_cons.mp hmem with rfl | hmem'
    · obtain ⟨v, tl, hget⟩ := hpres
      simp [applyRHR, hget, mapRR_none E rep hcomp]
    · cases hget : aGet h rep0.Header with
      | none =>
        simp only [applyRHR, hget]
        exact ih h ⟨rep, hmem', hpres, hcomp⟩
      | some vs =>
        cases hcomp0 : E.compile rep0.Regex with
        | none =>
          cases vs with
          | nil =>
            simp only [applyRHR, hget, show mapRR E rep0 [] = Except.ok [] from rfl]
            refine ih (aSet h rep0.Header []) ⟨rep, hmem', ?_, hcomp⟩
            exact (presentWithValue_aSet_iff h rep0.Header [] (fun v => v) hget rep.Header).mpr hpres
          | cons v vtl =>
            simp [applyRHR, hget, mapRR_none E rep0 hcomp0]
        | some re =>
          simp only [applyRHR, hget, mapRR_some E rep0 re hcomp0 vs]
          refine ih (aSet h rep0.Header (vs.map fun v => re v rep0.Replace))
            ⟨rep, hmem', ?_, hcomp⟩
          exact (presentWithValue_aSet_iff h rep0.Header vs _ hget rep.Header).mpr hpres

theorem applyRHR_ok (E : RegexEngine) : ∀ (reps : List HeaderReplacement) (h : Headers),
    (∀ rep ∈ reps, presentWithValue h rep.Header → E.compile rep.Regex ≠ none) →
    ∃ h2, applyRHR E reps h = .ok h2 := by
  intro reps
  induction reps with
  | nil => intro h _; exact ⟨h, rfl⟩
  | cons rep0 reps ih =>
    intro h hall
    cases hget : aGet h rep0.Header with
    | none =>
      simp only [applyRHR, hget]
      exact ih h fun rep hm hp => hall rep (List.mem_cons_of_mem _ hm) hp
    | some vs =>
      cases vs with
      | nil =>
        simp only [applyRHR, hget, show mapRR E rep0 [] = Except.ok [] from rfl]
        refine ih (aSet h rep0.Header []) fun rep hm hp => ?_
        refine hall rep (List.mem_cons_of_mem _ hm) ?_
        exact (presentWithValue_aSet_iff h rep0.Header [] (fun v => v) hget rep.Header).mp hp
      | cons v vtl =>
        have hc : E.compile rep0.Regex ≠ none :=
          hall rep0 (List.mem_cons_self _ _) ⟨v, vtl, hget⟩
        cases hcomp0 : E.compile rep0.Regex with
        | none => exact absurd hcomp0 hc
        | some re =>
          simp only [applyRHR, hget, mapRR_some E rep0 re hcomp0 (v :: vtl)]
          refine ih (aSet h rep0.Header ((v :: vtl).map fun v => re v rep0.Replace))
            fun rep hm hp => ?_
          refine hall rep (List.mem_cons_of_mem _ hm) ?_
          exact (presentWithValue_aSet_iff h rep0.Header (v :: vtl) _ hget rep.Header).mp hp

/-- Claim C6: for every request whose URL path equals the endpoint's
health path, the handler responds with status 200 and an empty body,
records nothing to any file, and leaves prev_sha and the seen-files map
unchanged. -/
theorem claim_C6_health (cfg : EndpointConfig) (E : RegexEngine) (secrets : List Str)
    (st : ProxyState) (disk : Disk) (req : RequestIn) (fx : Effects)
    (hpath : req.path = cfg.Health) :
    handleRequest cfg E secrets st disk req fx = ⟨.response 200 [], st, disk⟩ := by
  simp [handleRequest, hpath]

/-- A concrete request to the health path of `cfg0`. -/
def healthReq : RequestIn :=
  { method := gs "GET", url := gs "/health", path := gs "/health",
    rawQuery := [], headers := [] }

/-- Witness for C6: a concrete health request returns 200 with empty body
and leaves state and disk untouched. -/
theorem claim_C6_health_witness :
    handleRequest cfg0 idEngine [] initialProxyState [] healthReq okFx =
      ⟨.response 200 [], initialProxyState, []⟩ :=
  claim_C6_health cfg0 idEngine [] initialProxyState [] healthReq okFx (by decide)

/-- Claim C9: a WebSocket upgrade request never appends an interaction to
any JSON record file, never advances prev_sha, and never marks its
fileName as seen; consequently a later non-upgrade request with the same
filename fingerprint is still treated as the start of a new file, its
recorded previous_request reset to HeadSHA. -/
theorem claim_C9_websocket (cfg : EndpointConfig) (E : RegexEngine) (secrets : List Str)
    (st : ProxyState) (disk : Disk) (req : RequestIn) (fx : Effects)
    (hup : headerGet req.headers (gs "Upgrade") = some (gs "websocket")) :
    (handleRequest cfg E secrets st disk req fx).state = st ∧
    (handleRequest cfg E secrets st disk req fx).disk = disk ∧
    (∀ req2 fx2 disk2,
      handleRequest cfg E secrets (handleRequest cfg E secrets st disk req fx).state
        disk2 req2 fx2 =
      handleRequest cfg E secrets st disk2 req2 fx2) ∧
    (∀ (req2 : RequestIn) (fx2 : Effects) (disk2 : Disk) (b : Str) (status : Nat)
       (upHdrs upHdrs2 : Headers) (respBody : Str),
      ¬ req2.path = cfg.Health → fx2.bodyRead = .ok b → fx2.fileNameErr = none →
      ¬ headerGet req2.headers (gs "Upgrade") = some (gs "websocket") →
      fx2.upstreamDo = .ok (status, upHdrs) →
      applyRHR E cfg.ResponseHeaderReplacements upHdrs = .ok upHdrs2 →
      fx2.respBodyRead = .ok respBody → fx2.diskOpen = .ok () → fx2.diskWrite = .ok () →
      aGet st.seenFiles (fileNameOf cfg secrets st req2 b) = none →
      aGet (handleRequest cfg E secrets (handleRequest cfg E secrets st disk req fx).state
              disk2 req2 fx2).disk (fileNameOf cfg secrets st req2 b) =
        some (.json ⟨fileNameOf cfg secrets st req2 b,
          [⟨{ recReqOf cfg secrets st req2 b with PreviousRequest := HeadSHA },
            fileNameOf cfg secrets st req2 b,
            NewRecordedResponse secrets status upHdrs2 respBody⟩]⟩)) := by
  have hmain : (handleRequest cfg E secrets st disk req fx).state = st ∧
      (handleRequest cfg E secrets st disk req fx).disk = disk := by
    by_cases hp : req.path = cfg.Health
    · simp [handleRequest, hp]
    · cases hb : fx.bodyRead with
      | error e => simp [handleRequest, hp, hb]
      | ok b =>
        cases hf : fx.fileNameErr with
        | some e => simp [handleRequest, hp, hb, hf]
        | none => simp [handleRequest, hp, hb, hf, hup]
  refine ⟨hmain.1, hmain.2, fun req2 fx2 disk2 => by rw [hmain.1], ?_⟩
  intro req2 fx2 disk2 b status upHdrs upHdrs2 respBody g1 g2 g3 g4 g5 g6 g7 g8 g9 hseen
  rw [hmain.1,
      handleRequest_success_new cfg E secrets st disk2 req2 fx2 b status upHdrs upHdrs2
        respBody g1 g2 g3 g4 g5 g6 g7 g8 g9 hseen]
  exact aGet_aSet_self disk2 _ _

/-- Witness for C9: a concrete upgrade request leaves the initial state
and an empty disk unchanged. -/
theorem claim_C9_websocket_witness :
    (handleRequest cfg0 idEngine []
      initialProxyState []
      { method := gs "GET", url := gs "/ws", path := gs "/ws", rawQuery := [],
        headers := [(gs "Upgrade", [gs "websocket"])] } okFx).state = initialProxyState ∧
    (handleRequest cfg0 idEngine []
      initialProxyState []
      { method := gs "GET", url := gs "/ws", path := gs "/ws", rawQuery := [],
        headers := [(gs "Upgrade", [gs "websocket"])] } okFx).disk = [] :=
  ⟨(claim_C9_websocket cfg0 idEngine [] initialProxyState []
      { method := gs "GET", url := gs "/ws", path := gs "/ws", rawQuery := [],
        headers := [(gs "Upgrade", [gs "websocket"])] } okFx (by decide)).1,
   (claim_C9_websocket cfg0 idEngine [] initialProxyState []
      { method := gs "GET", url := gs "/ws", path := gs "/ws", rawQuery := [],
        headers := [(gs "Upgrade", [gs "websocket"])] } okFx (by decide)).2.1⟩

/-- Claim C2: the hash-chain step — fileName is the fingerprint with
previous_request forced to HeadSHA; a request opening a new file is reset
to HeadSHA before its sha_sum is computed, so record_id, fileName and the
first interaction's sha_sum coincide and its previous_request is HeadSHA,
and prev_sha stays unchanged; for a seen file prev_sha is advanced to
sha_sum exactly when fileName differs from sha_sum. -/
theorem claim_C2_hash_chain (cfg : EndpointConfig) (E : RegexEngine) (secrets : List Str)
    (st : ProxyState) (disk : Disk) (req : RequestIn) (fx : Effects)
    (b : Str) (status : Nat) (upHdrs upHdrs2 : Headers) (respBody : Str)
    (h1 : ¬ req.path = cfg.Health)
    (h2 : fx.bodyRead = .ok b)
    (h3 : fx.fileNameErr = none)
    (h4 : ¬ headerGet req.headers (gs "Upgrade") = some (gs "websocket"))
    (h5 : fx.upstreamDo = .ok (status, upHdrs))
    (h6 : applyRHR E cfg.ResponseHeaderReplacements upHdrs = .ok upHdrs2)
    (h7 : fx.respBodyRead = .ok respBody)
    (h8 : fx.diskOpen = .ok ())
    (h9 : fx.diskWrite = .ok ()) :
    fileNameOf cfg secrets st req b =
      ComputeSum { recReqOf cfg secrets st req b with PreviousRequest := HeadSHA } ∧
    (aGet st.seenFiles (fileNameOf cfg secrets st req b) = none →
      aGet (handleRequest cfg E secrets st disk req fx).disk
          (fileNameOf cfg secrets st req b) =
        some (.json ⟨fileNameOf cfg secrets st req b,
          [⟨{ recReqOf cfg secrets st req b with PreviousRequest := HeadSHA },
            fileNameOf cfg secrets st req b,
            NewRecordedResponse secrets status upHdrs2 respBody⟩]⟩) ∧
      (handleRequest cfg E secrets st disk req fx).state.prevRequestSHA =
        st.prevRequestSHA) ∧
    (∀ rf, aGet st.seenFiles (fileNameOf cfg secrets st req b) = some rf →
      (handleRequest cfg E secrets st disk req fx).state.prevRequestSHA =
        (if fileNameOf cfg secrets st req b ≠ ComputeSum (recReqOf cfg secrets st req b)
         then ComputeSum (recReqOf cfg secrets st req b) else st.prevRequestSHA)) := by
  refine ⟨rfl, ?_, ?_⟩
  · intro hseen
    rw [handleRequest_success_new cfg E secrets st disk req fx b status upHdrs upHdrs2
          respBody h1 h2 h3 h4 h5 h6 h7 h8 h9 hseen]
    exact ⟨aGet_aSet_self disk _ _, rfl⟩
  · intro rf hseen
    rw [handleRequest_success_seen cfg E secrets st disk req fx b status upHdrs upHdrs2
          respBody rf h1 h2 h3 h4 h5 h6 h7 h8 h9 hseen]

/-- Witness for C2: for the first `GET /x` of a run the chain cursor stays
at HeadSHA and the on-disk file carries one interaction whose sha_sum is
the file name and whose previous_request is HeadSHA. -/
theorem claim_C2_hash_chain_witness :
    aGet (handleRequest cfg0 idEngine [] initialProxyState [] getX okFx).disk
        (fileNameOf cfg0 [] initialProxyState getX []) =
      some (.json ⟨fileNameOf cfg0 [] initialProxyState getX [],
        [⟨{ recReqOf cfg0 [] initialProxyState getX [] with PreviousRequest := HeadSHA },
          fileNameOf cfg0 [] initialProxyState getX [],
          NewRecordedResponse [] 200 [] []⟩]⟩) ∧
    (handleRequest cfg0 idEngine [] initialProxyState [] getX okFx).state.prevRequestSHA =
      HeadSHA :=
  (claim_C2_hash_chain cfg0 idEngine [] initialProxyState [] getX okFx [] 200 [] [] []
    (by decide) rfl rfl (by decide) rfl rfl rfl rfl rfl).2.1 rfl

/-- Claim C10: the header rewriter compiles each configured regex with the
panicking constructor at response-handling time — an invalid regex whose
configured header is present in the upstream response panics the handler
(no error return, no 500 response); when every replacement whose header is
present compiles, the handler never panics, so invalid regexes on absent
headers are never compiled. -/
theorem claim_C10_mustcompile (cfg : EndpointConfig) (E : RegexEngine) (secrets : List Str)
    (st : ProxyState) (disk : Disk) (req : RequestIn) (fx : Effects)
    (b : Str) (status : Nat) (upHdrs : Headers)
    (h1 : ¬ req.path = cfg.Health)
    (h2 : fx.bodyRead = .ok b)
    (h3 : fx.fileNameErr = none)
    (h4 : ¬ headerGet req.headers (gs "Upgrade") = some (gs "websocket"))
    (h5 : fx.upstreamDo = .ok (status, upHdrs)) :
    ((∃ rep ∈ cfg.ResponseHeaderReplacements,
        presentWithValue upHdrs rep.Header ∧ E.compile rep.Regex = none) →
      (handleRequest cfg E secrets st disk req fx).outcome = .panicked) ∧
    ((∀ rep ∈ cfg.ResponseHeaderReplacements,
        presentWithValue upHdrs rep.Header → E.compile rep.Regex ≠ none) →
      (handleRequest cfg E secrets st disk req fx).outcome ≠ .panicked) := by
  constructor
  · intro hex
    have hp := applyRHR_panic E cfg.ResponseHeaderReplacements upHdrs hex
    simp [handleRequest, h1, h2, h3, h4, h5, hp]
  · intro hall
    obtain ⟨h2', hok⟩ := applyRHR_ok E cfg.ResponseHeaderReplacements upHdrs hall
    simp only [handleRequest, h1, if_false, h2, h3, h4, h5, hok]
    cases hr : fx.respBodyRead with
    | error e => simp
    | ok respBody =>
      cases ho : fx.diskOpen with
      | error e => simp [recordResponse, ho]
      | ok u =>
        cases hw : fx.diskWrite with
        | error e => simp [recordResponse, ho, hw]
        | ok u2 => simp [recordResponse, ho, hw]

/-- A configuration with one response-header replacement whose regex is
the invalid pattern `bad(`. -/
def cfgBadRegex : EndpointConfig :=
  { cfg0 with ResponseHeaderReplacements := [⟨gs "Set-Cookie", gs "bad(", gs "x"⟩] }

/-- An engine on which the pattern `bad(` fails to compile and everything
else compiles to the identity rewrite. -/
def badEngine : RegexEngine :=
  { compile := fun r => if r = gs "bad(" then none else some fun s _ => s }

/-- Effects whose upstream response carries a `Set-Cookie` header. -/
def fxSetCookie : Effects :=
  { okFx with upstreamDo := .ok (200, [(gs "Set-Cookie", [gs "sessionid=a"])]) }

/-- Witness for C10: with the invalid regex configured and the header
present, the concrete handler run panics. -/
theorem claim_C10_mustcompile_witness :
    (handleRequest cfgBadRegex badEngine [] initialProxyState [] getX fxSetCookie).outcome =
      .panicked :=
  (claim_C10_mustcompile cfgBadRegex badEngine [] initialProxyState [] getX fxSetCookie
    [] 200 [(gs "Set-Cookie", [gs "sessionid=a"])]
    (by decide) rfl rfl (by decide) rfl).1
    ⟨⟨gs "Set-Cookie", gs "bad(", gs "x"⟩, List.mem_cons_self _ _,
     ⟨gs "sessionid=a", [], by decide⟩, rfl⟩

/-- Claim C1 (evaluation at the failing input): after two successfully
handled identical `GET /x` requests mapping to the same fileName, the
on-disk JSON artifact holds only ONE interaction, not two — recording
reads the `seenFiles` map value, appends to a local copy, and never
writes the appended list back, so every rewrite starts from the empty
interaction list. -/
theorem claim_C1_lost_interactions :
    aGet (runRequests cfg0 idEngine [] initialProxyState []
            [(getX, okFx), (getX, okFx)]).2
        (fileNameOf cfg0 [] initialProxyState getX []) =
      some (.json ⟨fileNameOf cfg0 [] initialProxyState getX [],
        [⟨{ recReqOf cfg0 [] initialProxyState getX [] with PreviousRequest := HeadSHA },
          fileNameOf cfg0 [] initialProxyState getX [],
          NewRecordedResponse [] 200 [] []⟩]⟩) := by
  decide

/-- Effects whose disk write fails after a successful truncating open. -/
def fxWriteFail : Effects := { okFx with diskWrite := .error (gs "disk full") }

/-- A disk already holding a durable JSON artifact for the file that
`GET /x` maps to. -/
def priorDisk : Disk :=
  [(fileNameOf cfg0 [] initialProxyState getX [],
    .json ⟨gs "old", []⟩)]

/-- Counterexample to C3: when the disk write fails, the client does NOT
receive HTTP 500 (the upstream 200 was already committed; the error text
is merely appended to the body), and the prior durable artifact is
destroyed (truncated to empty by the `O_TRUNC` open). -/
theorem claim_C3_counterexample :
    (handleRequest cfg0 idEngine [] initialProxyState priorDisk getX fxWriteFail).outcome =
      .response 200 (gs "Error recording response: disk full" ++ [nlc]) ∧
    aGet (handleRequest cfg0 idEngine [] initialProxyState priorDisk getX
            fxWriteFail).disk
        (fileNameOf cfg0 [] initialProxyState getX []) = some .empty := by
  decide

/-- Claim C3 as amended: failures before the upstream response is
committed (request body read, file-name derivation, upstream dispatch)
yield HTTP 500 with the error message and leave state and disk intact;
failures after the response is committed (upstream body read, disk open,
disk write) keep the upstream status, append the error message, record no
interaction and leave prev_sha unchanged — a disk-open failure leaves the
disk intact, while a disk-write failure truncates that one file. -/
theorem claim_C3_amended (cfg : EndpointConfig) (E : RegexEngine) (secrets : List Str)
    (st : ProxyState) (disk : Disk) (req : RequestIn) (fx : Effects)
    (e b : Str) (status : Nat) (upHdrs upHdrs2 : Headers) (respBody : Str) :
    (¬ req.path = cfg.Health → fx.bodyRead = .error e →
      handleRequest cfg E secrets st disk req fx =
        ⟨.response 500 (gs "Error recording request: " ++ e ++ [nlc]), st, disk⟩) ∧
    (¬ req.path = cfg.Health → fx.bodyRead = .ok b → fx.fileNameErr = some e →
      handleRequest cfg E secrets st disk req fx =
        ⟨.response 500 (gs "Invalid recording file name: " ++ e ++ [nlc]), st, disk⟩) ∧
    (¬ req.path = cfg.Health → fx.bodyRead = .ok b → fx.fileNameErr = none →
     ¬ headerGet req.headers (gs "Upgrade") = some (gs "websocket") →
     fx.upstreamDo = .error e →
      handleRequest cfg E secrets st disk req fx =
        ⟨.response 500 (gs "Error proxying request: " ++ e ++ [nlc]), st, disk⟩) ∧
    (¬ req.path = cfg.Health → fx.bodyRead = .ok b → fx.fileNameErr = none →
     ¬ headerGet req.headers (gs "Upgrade") = some (gs "websocket") →
     fx.upstreamDo = .ok (status, upHdrs) →
     applyRHR E cfg.ResponseHeaderReplacements upHdrs = .ok upHdrs2 →
     fx.respBodyRead = .error e →
      handleRequest cfg E secrets st disk req fx =
        ⟨.response status (gs "Error proxying request: " ++ e ++ [nlc]), st, disk⟩) ∧
    (¬ req.path = cfg.Health → fx.bodyRead = .ok b → fx.fileNameErr = none →
     ¬ headerGet req.headers (gs "Upgrade") = some (gs "websocket") →
     fx.upstreamDo = .ok (status, upHdrs) →
     applyRHR E cfg.ResponseHeaderReplacements upHdrs = .ok upHdrs2 →
     fx.respBodyRead = .ok respBody → fx.diskOpen = .error e →
      (handleRequest cfg E secrets st disk req fx).outcome =
        .response status (respBody ++ gs "Error recording response: " ++ e ++ [nlc]) ∧
      (handleRequest cfg E secrets st disk req fx).state.prevRequestSHA =
        st.prevRequestSHA ∧
      (handleRequest cfg E secrets st disk req fx).disk = disk) ∧
    (¬ req.path = cfg.Health → fx.bodyRead = .ok b → fx.fileNameErr = none →
     ¬ headerGet req.headers (gs "Upgrade") = some (gs "websocket") →
     fx.upstreamDo = .ok (status, upHdrs) →
     applyRHR E cfg.ResponseHeaderReplacements upHdrs = .ok upHdrs2 →
     fx.respBodyRead = .ok respBody → fx.diskOpen = .ok () → fx.diskWrite = .error e →
      (handleRequest cfg E secrets st disk req fx).outcome =
        .response status (respBody ++ gs "Error recording response: " ++ e ++ [nlc]) ∧
      (handleRequest cfg E secrets st disk req fx).state.prevRequestSHA =
        st.prevRequestSHA ∧
      (handleRequest cfg E secrets st disk req fx).disk =
        aSet disk (fileNameOf cfg secrets st req b) .empty) := by
  refine ⟨?_, ?_, ?_, ?_, ?_, ?_⟩
  · intro hp hb
    simp [handleRequest, hp, hb]
  · intro hp hb hf
    simp [handleRequest, hp, hb, hf]
  · intro hp hb hf hw hu
    simp [handleRequest, hp, hb, hf, hw, hu]
  · intro hp hb hf hw hu ha hr
    simp [handleRequest, hp, hb, hf, hw, hu, ha, hr]
  · intro hp hb hf hw hu ha hr ho
    simp [handleRequest, hp, hb, hf, hw, hu, ha, hr, recordResponse, ho]
  · intro hp hb hf hw hu ha hr ho hwr
    simp [handleRequest, hp, hb, hf, hw, hu, ha, hr, recordResponse, ho, hwr,
      fileNameOf, recReqOf]

/-- Witness for the amended C3: a concrete body-read failure returns 500
with the error text and leaves state and disk untouched. -/
theorem claim_C3_amended_witness :
    handleRequest cfg0 idEngine [] initialProxyState [] getX
        { okFx with bodyRead := .error (gs "read failed") } =
      ⟨.response 500 (gs "Error recording request: " ++ gs "read failed" ++ [nlc]),
       initialProxyState, []⟩ :=
  (claim_C3_amended cfg0 idEngine [] initialProxyState [] getX
    { okFx with bodyRead := .error (gs "read failed") }
    (gs "read failed") [] 200 [] [] []).1 (by decide) rfl

/-- A configuration whose `target_type` is plain `http`. -/
def cfgHttp : EndpointConfig := { cfg0 with TargetType := gs "http" }

/-- A configuration whose `target_type` is plain `ws`. -/
def cfgWsType : EndpointConfig := { cfg0 with TargetType := gs "ws" }

/-- Counterexample to C4: with `target_type = http` the upstream URL still
begins with `https://` (likewise `wss://` for `target_type = ws`): the
schemes are hardcoded and do not mirror `target_type`. -/
theorem claim_C4_counterexample :
    cfgHttp.TargetType = gs "http" ∧
    buildProxyURL cfgHttp (gs "/x") [] = gs "https://example.com:443/x" ∧
    (gs "http://").isPrefixOf (buildProxyURL cfgHttp (gs "/x") []) = false ∧
    cfgWsType.TargetType = gs "ws" ∧
    buildWsURL cfgWsType (gs "/x") [] = gs "wss://example.com:443/x" ∧
    (gs "ws://").isPrefixOf (buildWsURL cfgWsType (gs "/x") []) = false := by
  decide

/-- Claim C4 as amended: the upstream URL scheme is always `https` for
plain HTTP requests and always `wss` for WebSocket upgrades, regardless of
the configured `target_type`; host and port come from the configuration
and path and query are copied from the original request. -/
theorem claim_C4_amended (cfg : EndpointConfig) (p q : Str) :
    gs "https://" <+: buildProxyURL cfg p q ∧
    gs "wss://" <+: buildWsURL cfg p q ∧
    (q = [] → p <:+ buildProxyURL cfg p q ∧ p <:+ buildWsURL cfg p q) ∧
    (q ≠ [] → (p ++ '?' :: q) <:+ buildProxyURL cfg p q ∧
              (p ++ '?' :: q) <:+ buildWsURL cfg p q) := by
  refine ⟨⟨cfg.TargetHost ++ ':' :: natToStr cfg.TargetPort ++ p ++
            (if q = [] then [] else '?' :: q), ?_⟩,
          ⟨cfg.TargetHost ++ ':' :: natToStr cfg.TargetPort ++ p ++
            (if q = [] then [] else '?' :: q), ?_⟩, ?_, ?_⟩
  · simp [buildProxyURL, List.append_assoc]
  · simp [buildWsURL, List.append_assoc]
  · intro hq
    subst hq
    constructor
    · refine ⟨gs "https://" ++ cfg.TargetHost ++ (':' :: natToStr cfg.TargetPort), ?_⟩
      simp [buildProxyURL, List.append_assoc]
    · refine ⟨gs "wss://" ++ cfg.TargetHost ++ (':' :: natToStr cfg.TargetPort), ?_⟩
      simp [buildWsURL, List.append_assoc]
  · intro hq
    constructor
    · refine ⟨gs "https://" ++ cfg.TargetHost ++ (':' :: natToStr cfg.TargetPort), ?_⟩
      simp [buildProxyURL, if_neg hq, List.append_assoc]
    · refine ⟨gs "wss://" ++ cfg.TargetHost ++ (':' :: natToStr cfg.TargetPort), ?_⟩
      simp [buildWsURL, if_neg hq, List.append_assoc]

/-- Witness for the amended C4: concrete path and query land as path and
query of the hardcoded-scheme upstream URL. -/
theorem claim_C4_amended_witness :
    gs "https://" <+: buildProxyURL cfg0 (gs "/x") (gs "a=1") ∧
    (gs "/x" ++ '?' :: gs "a=1") <:+ buildProxyURL cfg0 (gs "/x") (gs "a=1") :=
  ⟨(claim_C4_amended cfg0 (gs "/x") (gs "a=1")).1,
   ((claim_C4_amended cfg0 (gs "/x") (gs "a=1")).2.2.2 (by decide)).1⟩

/-- Counterexample to C5: with secrets `["secret"]` and frame
`hello-secret` the pump's log record is not `>13 hello-REDACTED\n` (the
length counts the redacted bytes, 15 of them) and the peer does not
receive the original bytes unmodified (a newline has been appended). -/
theorem claim_C5_counterexample :
    (pumpStep [gs "secret"] (gs ">") (gs "hello-secret")).1 ≠ gs ">13 hello-REDACTED\n" ∧
    (pumpStep [gs "secret"] (gs ">") (gs "hello-secret")).2 ≠ gs "hello-secret" := by
  decide

/-- Claim C5 as amended: each pump appends a newline, redacts, emits the
log record `<dir><len> <redacted-bytes>` where `len` is the byte length of
the redacted bytes (newline included), and forwards the original bytes
WITH the appended newline to the peer; with secrets `["secret"]` and frame
`hello-secret` the two directions log `>15 hello-REDACTED\n` and
`<15 hello-REDACTED\n` and the peers receive `hello-secret\n`. -/
theorem claim_C5_amended :
    (∀ (secrets : List Str) (dir buf : Str),
      pumpStep secrets dir buf =
        (dir ++ natToStr (redactStr secrets (buf ++ [nlc])).length ++
           ' ' :: redactStr secrets (buf ++ [nlc]),
         buf ++ [nlc])) ∧
    pumpStep [gs "secret"] (gs ">") (gs "hello-secret") =
      (gs ">15 hello-REDACTED\n", gs "hello-secret\n") ∧
    pumpStep [gs "secret"] (gs "<") (gs "hello-secret") =
      (gs "<15 hello-REDACTED\n", gs "hello-secret\n") := by
  refine ⟨fun secrets dir buf => rfl, by decide, by decide⟩

/-- A well-formed serialized request (separator, known prefixes, base-10
port, header lines until a blank, body remainder) whose header lines are
not in ascending name order. -/
def c7x : Str :=
  HeadSHA ++ gs "\nServer Address: \nPort: 0\nProtocol: \n********************************************************************************\nGET / HTTP/1.1\nB: y\nA: x\n\n\n"

/-- Counterexample to C7: `c7x` deserializes successfully (so it is
well-formed in the claim's sense), yet re-serializing does not restore it
— the serializer emits headers sorted by name, while `c7x` lists `B`
before `A`. -/
theorem claim_C7_counterexample :
    (Deserialize c7x).map Serialize ≠ Except.ok c7x ∧
    (Deserialize c7x).map Serialize ≠ Except.error StoreError.InvalidSerializedForm ∧
    (Deserialize c7x).map Serialize ≠ Except.error StoreError.InvalidPort := by
  decide

/-- Claim C7 as amended: the round trip holds on the serializer's image —
for every canonical recorded request (newline-free fields, 64-character
previous hash, sorted distinct nonempty colon-free headers),
`Serialize(Deserialize(Serialize r)) = Serialize r`, and indeed
`Deserialize(Serialize r) = ok r`. -/
theorem claim_C7_roundtrip (r : RecordedRequest) (h : canonicalReq r) :
    (Deserialize (Serialize r)).map Serialize = Except.ok (Serialize r) := by
  rw [Deserialize_Serialize r h]
  rfl

/-- The valid deserializer test vector as a record, a canonical request. -/
def c7r : RecordedRequest :=
  { Request := gs "GET / HTTP/1.1"
  , Header := [(gs "Accept", [gs "application/xml"]),
               (gs "Content-Type", [gs "application/json"])]
  , Body := gs "\x7b\"key\": \"value\"\x7d"
  , PreviousRequest := gs "0102030405060708090a0b0c0d0e0f101112131415161718191a1b1c1d1e1f20"
  , ServerAddress := gs "example.com"
  , Port := 8080
  , Protocol := gs "http" }

/-- Witness for the amended C7 at the store test vector. -/
theorem claim_C7_roundtrip_witness :
    (Deserialize (Serialize c7r)).map Serialize = Except.ok (Serialize c7r) :=
  claim_C7_roundtrip c7r (by decide)

/-- Counterexample to C8: redaction is not idempotent — with the secret
`RED`, redacting `RED` once yields `REDACTED`, and redacting again
rewrites the `RED` inside the replacement token. -/
theorem claim_C8_counterexample :
    redactStr [gs "RED"] (redactStr [gs "RED"] (gs "RED")) ≠
      redactStr [gs "RED"] (gs "RED") := by
  decide

theorem map_congr_mem {α β : Type} (l : List α) (f g : α → β)
    (h : ∀ a ∈ l, f a = g a) : l.map f = l.map g := by
  induction l with
  | nil => rfl
  | cons a t ih =>
    simp only [List.map_cons]
    rw [h a (List.mem_cons_self a t), ih fun x hx => h x (List.mem_cons_of_mem _ hx)]

/-- Claim C8 as amended: redaction is idempotent on every surface —
strings and byte buffers, header maps, and string-to-any maps — provided
the once-redacted value contains no further occurrence of any non-empty
secret (the general claim fails when a secret overlaps the `REDACTED`
token or its boundaries). -/
theorem claim_C8_amended :
    (∀ (secrets : List Str) (s : Str),
      (∀ sec ∈ secrets, sec = [] ∨ containsSubstr (redactStr secrets s) sec = false) →
      redactStr secrets (redactStr secrets s) = redactStr secrets s) ∧
    (∀ (secrets : List Str) (h : Headers),
      (∀ p ∈ h, ∀ v ∈ p.2, ∀ sec ∈ secrets,
        sec = [] ∨ containsSubstr (redactStr secrets v) sec = false) →
      redactHeaderVals secrets (redactHeaderVals secrets h) =
        redactHeaderVals secrets h) ∧
    (∀ (secrets : List Str) (v : JVal),
      cleanJVal secrets (redactJVal secrets v) = true →
      redactJVal secrets (redactJVal secrets v) = redactJVal secrets v) := by
  refine ⟨redactStr_idem_of_clean, ?_, fun secrets v h => redactJVal_of_clean secrets _ h⟩
  intro secrets h hcond
  unfold redactHeaderVals
  rw [List.map_map]
  apply map_congr_mem
  intro p hp
  simp only [Function.comp]
  rw [List.map_map]
  congr 1
  apply map_congr_mem
  intro v hv
  exact redactStr_idem_of_clean secrets v (hcond p hp v hv)

/-- Witness for the amended C8: the redacted WebSocket frame of scenario 6
is a fixed point of redaction. -/
theorem claim_C8_amended_witness :
    redactStr [gs "secret"] (redactStr [gs "secret"] (gs "hello-secret")) =
      redactStr [gs "secret"] (gs "hello-secret") :=
  claim_C8_amended.1 [gs "secret"] (gs "hello-secret") (by decide)
